import Mathlib

/-!
Verification of the Stimulator orchestration daemon against its specification.

The development shallowly embeds the two algorithmic cores of the repository:

* `Protocol_phases._build_led_list` (file `Remote_control/Tools/_Protocol_phases.py`):
  the timeline scheduler that turns the mechanical and electrical activity-segment
  lists into cumulative timelines, collapses redundant points, merges the two
  timelines with a boolean OR, and derives the three-state LED indicator schedule.
  Durations and timestamps (Python floats, "real-valued seconds" per the spec) are
  embedded as rationals `ℚ`; activity flags as `Bool`; LED values as `ℕ` (0 resting,
  1 warning, 2 active).

* `Daemon_run` (file `Remote_control/Server/_Daemon.py`): the command-dispatch
  state machine and single-slot process supervisor.  The child process is embedded
  as a handle that records, for a live process, how it responds to the
  SIGINT → terminate → kill stop escalation; Python exceptions that the source
  does not catch are embedded as `Except`-style error outcomes.
-/

/-! ## Timeline scheduler (`Protocol_phases._build_led_list`) -/

/-- One activity segment `(duration, active-flag)`, as appended to
`self._mecha_stimu_on` / `self._elec_stimu_on` (after the `(0., False)`
placeholder at index 0). -/
abbrev Segment : Type := ℚ × Bool

/-- One timeline point `(absolute timestamp, active-flag)`. -/
abbrev TPoint : Type := ℚ × Bool

/-- The cumulative-sum loop body: source lines
`for ((t, _), (_, value)) in zip(on[1:-1], on[2:]):`
`  timestamps.append((t + timestamps[-1][0], value))`.
`acc` is `timestamps[-1][0]`, the timestamp last appended. -/
def cumPoints (acc : ℚ) : List (Segment × Segment) → List TPoint
  | [] => []
  | ((t, _), (_, value)) :: rest => (acc + t, value) :: cumPoints (acc + t) rest

/-- The per-channel cumulative timeline.  The first point is
`(0., segs and segs_on[1][1])` (Python `and`: `False`-ish for an empty channel,
else the first segment's flag); the remaining points come from zipping
`on[1:-1]` with `on[2:]`, i.e. `segs.dropLast` with `segs.tail`. -/
def cumTimeline (segs : List Segment) : List TPoint :=
  match segs with
  | [] => [(0, false)]
  | s0 :: _ => (0, s0.2) :: cumPoints 0 (segs.dropLast.zip segs.tail)

/-- The redundancy-collapse loop on the tail: a point is dropped when its value
equals the value of its predecessor in the original list (the source collects
the indices `i+1` with `l[i][1] == l[i+1][1]` and deletes them). `prev` is the
original predecessor's value. -/
def collapseAux (prev : Bool) : List TPoint → List TPoint
  | [] => []
  | p :: rest => if p.2 = prev then collapseAux p.2 rest else p :: collapseAux p.2 rest

/-- Redundancy collapse of a whole timeline: the first point is always kept. -/
def collapse : List TPoint → List TPoint
  | [] => []
  | p :: rest => p :: collapseAux p.2 rest

/-- The full per-channel pass of `_build_led_list`: cumulative sum, then (only
when the channel's generator list is non-empty, as in the source) the
redundancy collapse. For an empty channel the timeline is `[(0, false)]`, which
the collapse would leave unchanged anyway. -/
def channelTimeline (segs : List Segment) : List TPoint :=
  if segs.isEmpty then cumTimeline segs else collapse (cumTimeline segs)

/-- The OR-merge loop building `is_active_timestamps`.  Each iteration emits one
point `(larger current timestamp, mecha value or elec value)`; then it looks at
the next timestamp on each side: if one side has none the other side's remaining
points are appended verbatim (`is_active_timestamps.extend(...)`), otherwise the
side with the smaller next timestamp advances (both advance on a tie).  The
source indexes `stimu_mecha_timestamps[index_mecha]` / `stimu_elec_timestamps
[index_elec]`; here the two lists are the suffixes from those indices on.  In
the source both lists always hold at least their initial `(0., flag)` point, so
the empty-list cases below are never reached. -/
def orPoint (m e : TPoint) : TPoint :=
  if m.1 > e.1 then (m.1, m.2 || e.2)
  else if m.1 < e.1 then (e.1, m.2 || e.2)
  else (m.1, m.2 || e.2)

def buildActive : List TPoint → List TPoint → List TPoint
  | [m], [e] => [orPoint m e]
  | [m], e :: e' :: es' => orPoint m e :: e' :: es'
  | m :: m' :: ms', [e] => orPoint m e :: m' :: ms'
  | m :: m' :: ms', e :: e' :: es' =>
    orPoint m e ::
    (if m'.1 > e'.1 then buildActive (m :: m' :: ms') (e' :: es')
     else if e'.1 > m'.1 then buildActive (m' :: ms') (e :: e' :: es')
     else buildActive (m' :: ms') (e' :: es'))
  | _, _ => []
termination_by a b => a.length + b.length

/-- One LED list entry `(delay, value)`: the source appends dictionaries
`{'type': 'constant', 'condition': 'delay=<delay>', 'value': <value>}` with
value 0 (resting), 1 (warning) or 2 (active). -/
abbrev LedEntry : Type := ℚ × ℕ

/-- The entries contributed by one adjacent pair of merged-timeline points:
a resting interval strictly longer than `time_orange_on_minutes * 60` is split
into a resting entry and a warning entry of length `time_orange_on_minutes *
60`; every other interval yields a single entry with value 2. -/
def ledChunks (orangeMin : ℚ) (p q : TPoint) : List LedEntry :=
  if !p.2 && (q.1 - p.1 > orangeMin * 60) then
    [((q.1 - p.1) - orangeMin * 60, 0), (orangeMin * 60, 1)]
  else
    [(q.1 - p.1, 2)]

/-- The LED-building loop over `zip(is_active_timestamps[:-1],
is_active_timestamps[1:])`. -/
def buildLed (orangeMin : ℚ) : List TPoint → List LedEntry
  | p :: q :: rest => ledChunks orangeMin p q ++ buildLed orangeMin (q :: rest)
  | _ => []

/-- Timestamp of the last point of a timeline (`0` for the empty list, which
never occurs for the timelines built above). -/
def lastTs (tl : List TPoint) : ℚ :=
  ((tl.getLast?).map Prod.fst).getD 0

/-- Sum of the durations of a segment list. -/
def sumDur (segs : List Segment) : ℚ :=
  (segs.map Prod.fst).sum

/-- Sorted merge of two timestamp lists, keeping a tied timestamp once: the
boundary enumeration the spec describes for the OR-merge. -/
def mergeTs : List ℚ → List ℚ → List ℚ
  | [], ys => ys
  | x :: xs, [] => x :: xs
  | x :: xs, y :: ys =>
    if x < y then x :: mergeTs xs (y :: ys)
    else if y < x then y :: mergeTs (x :: xs) ys
    else x :: mergeTs xs ys
termination_by a b => a.length + b.length

/-- Value of a timeline in effect at time `t`: the value of the last point with
timestamp `≤ t` (`false` before the first point; never relevant for timelines
starting at 0 and `t ≥ 0`). -/
def valueAt (tl : List TPoint) (t : ℚ) : Bool :=
  (((tl.filter (fun p => p.1 ≤ t)).getLast?).map Prod.snd).getD false

/-! ## Daemon (`Daemon_run` in `Remote_control/Server/_Daemon.py`)

Text lines of a protocol file are embedded as `List Char`; a protocol payload
(one message on the protocol-upload topic, written to / read back from a file
in the `Protocols/` folder) as `List (List Char)`.  The `Protocols/` folder is
an association list from file name to file content, where writing a file
prepends (shadowing any earlier entry, i.e. overwriting). -/

/-- A line of text (one element of the `list(protocol_file)` / uploaded list).
-/
abbrev Line : Type := List Char

/-- How a live protocol process responds to the stop escalation of
`Daemon_run._stop_protocol`: `onInt` is the exit code observed by
`wait(10)` after `send_signal(SIGINT)` (`none` when that wait raises
`TimeoutExpired`), `onTerm` after `terminate()`, `onKill` after `kill()`. -/
structure StopBehavior where
  onInt : Option Int
  onTerm : Option Int
  onKill : Option Int
deriving DecidableEq

/-- The single child-process slot `self._protocol` refers to: either a live
process (with its stop behavior) or an exited one retaining its exit code. -/
inductive Handle
  | running (beh : StopBehavior)
  | exited (code : Int)
deriving DecidableEq

/-- Non-blocking `Popen.poll()`: `none` while the process is alive, the exit
code once it has exited. -/
def Handle.poll : Handle → Option Int
  | .running _ => none
  | .exited code => some code

/-- Python exceptions that escape the handlers of `Daemon_run` (none of the
handlers is guarded by a `try` at the dispatch boundary in
`_protocol_manager`). -/
inductive PyExn
  | timeoutExpired
  | fileNotFound
deriving DecidableEq

/-- The daemon state owned by the control loop: the process slot
`self._protocol`, the `Protocols/` folder, the pending payloads of
`self._protocol_queue`, and the messages published on the status topic
(most recent first). `_choose_protocol` / `_write_protocol` also rewrite the
module files `Protocols/__init__.py` and `Protocol.py`; those are scratch
files for spawning and are not modelled.  -/
structure DaemonState where
  protocol : Option Handle
  store : List (Line × List Char)
  protocolQueue : List (List Line)
  published : List String
deriving DecidableEq

/-- `self._publish(message)`. -/
def publish (message : String) (s : DaemonState) : DaemonState :=
  { s with published := message :: s.published }

/-- `self._is_protocol_active`: `self._protocol is not None and
self._protocol.poll() is None`. -/
def isProtocolActive (s : DaemonState) : Bool :=
  match s.protocol with
  | none => false
  | some h => h.poll.isNone

/-- File name under which `_save_protocol` writes and `_send_protocol` reads a
protocol: `Protocols/Protocol_{name}.py`. -/
def protoFileName (name : Line) : Line :=
  "Protocol_".data ++ name ++ ".py".data

/-- Reading a file from the `Protocols/` folder. -/
def storeRead (store : List (Line × List Char)) (fname : Line) : Option (List Char) :=
  (store.find? (fun kv => kv.1 = fname)).map Prod.snd

/-- `open(..., 'w')` then `for line in protocol: protocol_file.write(line)`:
the file content is the concatenation of the lines. -/
def joinLines (lines : List Line) : List Char :=
  lines.flatten

/-- Iterating over an open text file (`list(protocol_file)`): split after each
newline character, keeping the newline; a trailing chunk with no newline forms
a final line. -/
def splitAux (cur : List Char) : List Char → List Line
  | [] => if cur = [] then [] else [cur.reverse]
  | c :: rest =>
    if c = '\n' then (cur.reverse ++ ['\n']) :: splitAux [] rest
    else splitAux (c :: cur) rest

def splitLines (cs : List Char) : List Line :=
  splitAux [] cs

/-- `Daemon_run._send_protocol(name)`: opens
`Protocols/Protocol_{name}.py` — the `open` raises `FileNotFoundError` when the
file does not exist, and nothing catches it — reads it as a list of lines,
publishes it on the protocol-download topic (returned here as the second
component) and acknowledges.  The `is_published()` check of the source is
modelled as always succeeding. -/
def sendProtocol (name : Line) (s : DaemonState) :
    Except PyExn (DaemonState × List Line) :=
  match storeRead s.store (protoFileName name) with
  | none => .error .fileNotFound
  | some content =>
    .ok (publish "Protocol successfully downloaded" s, splitLines content)

/-- `Daemon_run._save_protocol(name, p_word)` with configured secret
`password` (the content of `password.txt`): on a password mismatch it replies
and returns before touching the queue or the folder; otherwise it takes one
payload from the protocol queue (`Empty` after the 5 s timeout when none is
pending) and writes it to `Protocols/Protocol_{name}.py`. -/
def saveProtocol (password : String) (name : Line) (p_word : String)
    (s : DaemonState) : DaemonState :=
  if p_word ≠ password then publish "Error ! Wrong password" s
  else
    match s.protocolQueue with
    | [] => publish "Error ! No protocol received" s
    | proto :: rest =>
      publish "Protocol successfully uploaded"
        { s with
          store := (protoFileName name, joinLines proto) :: s.store,
          protocolQueue := rest }

/-- `Daemon_run._send_protocol_status`. -/
def sendProtocolStatus (s : DaemonState) : DaemonState :=
  match s.protocol with
  | none => publish "No protocol started yet" s
  | some h =>
    if h.poll.isNone then publish "Protocol running" s
    else if h.poll = some 0 then publish "Last protocol terminated gracefully" s
    else publish "Last protocol terminated with an error" s

/-- `Daemon_run._send_protocol_list`: the name list goes out on the
protocol-list topic (not modelled); the status topic gets the confirmation. -/
def sendProtocolList (s : DaemonState) : DaemonState :=
  publish "Received list of protocols" s

/-- Outcome of spawning `Popen(['python3', self._protocol_path])` followed by
the two `wait(5)` startup checks of `_start_protocol`: either the process is
still running after them (both waits, or the second, raised `TimeoutExpired`),
or it exited during them with some code. -/
inductive SpawnOutcome
  | runs (beh : StopBehavior)
  | crashes (code : Int)

/-- `Daemon_run._start_protocol(name)`. -/
def startProtocol (_name : Line) (outcome : SpawnOutcome) (s : DaemonState) :
    DaemonState :=
  if !(isProtocolActive s) then
    match outcome with
    | .runs beh => publish "Protocol started" { s with protocol := some (.running beh) }
    | .crashes code =>
      publish "Error ! Protocol crashed at starting" { s with protocol := some (.exited code) }
  else
    publish "Protocol already running, stop it before starting new one" s

/-- The `try/except TimeoutExpired` escalation of `_stop_protocol`:
`send_signal(SIGINT); wait(10)`; on timeout `terminate(); wait(10)`; on
timeout `kill(); wait(10)`.  The innermost `wait(10)` is inside the handler of
the second `except TimeoutExpired` and is itself unguarded: when it also times
out, the `TimeoutExpired` propagates out of `_stop_protocol` (result `none`
here). -/
def stopEscalation (beh : StopBehavior) : Option Int :=
  match beh.onInt with
  | some code => some code
  | none =>
    match beh.onTerm with
    | some code => some code
    | none => beh.onKill

/-- `Daemon_run._stop_protocol`: returns the daemon state and the `int` return
value of the method, or the exception that escaped it. -/
def stopProtocol (s : DaemonState) : Except PyExn (DaemonState × Int) :=
  if isProtocolActive s then
    match s.protocol with
    | some (.running beh) =>
      (match stopEscalation beh with
       | none => .error .timeoutExpired
       | some code =>
         -- the process exited during the escalation; `poll()` now returns it
         let h : Handle := .exited code
         let s' : DaemonState := { s with protocol := some h }
         match h.poll with
         | none => .ok (publish "Error ! Could not stop the protocol" s', 1)
         | some 0 => .ok (publish "Protocol terminated gracefully" s', 0)
         | some _ => .ok (publish "Protocol terminated with an error" s', 0))
    | _ => .ok (s, 0)  -- `isProtocolActive` guarantees a live handle
  else
    .ok (publish "No protocol currently running !" s, 0)

/-- What one pass of the control loop leads to: keep serving, leave the loop
through `DaemonStop` (the daemon stops in an orderly way), or die on an
exception nothing catches. -/
inductive StepOutcome
  | serving (s : DaemonState)
  | stopping (s : DaemonState)
  | crashed (e : PyExn) (s : DaemonState)
deriving DecidableEq

/-- `Daemon_run._stop_server`: stops an active protocol first; when
`_stop_protocol()` returns nonzero it reports and keeps serving, otherwise it
raises `DaemonStop`. -/
def stopServer (s : DaemonState) : StepOutcome :=
  if isProtocolActive s then
    match stopProtocol s with
    | .error e => .crashed e s
    | .ok (s', rc) =>
      if rc ≠ 0 then
        .serving (publish "Error ! Could not stop the current protocol, server not stopped" s')
      else .stopping s'
  else .stopping s

/-! ### Command grammar (`msg_templates`, matched with `fullmatch` in
`_protocol_manager`)

The patterns use `\s` (one whitespace character), `\S+` (a maximal nonempty run
of non-whitespace, as regex backtracking cannot shorten it when followed by
`\s`), `.+` (a nonempty run of non-newline characters reaching the end of the
message). -/

def isPySpace (c : Char) : Bool :=
  c = ' ' || c = '\t' || c = '\n' || c = '\r' || c = '\x0b' || c = '\x0c'

/-- Strip an exact literal prefix. -/
def stripLit : List Char → List Char → Option (List Char)
  | [], cs => some cs
  | _ :: _, [] => none
  | l :: ls, c :: cs => if c = l then stripLit ls cs else none

/-- Strip one `\s`. -/
def stripSpace : List Char → Option (List Char)
  | c :: cs => if isPySpace c then some cs else none
  | [] => none

/-- Match `.+` against the whole remainder. -/
def matchRest (cs : List Char) : Option Line :=
  if cs ≠ [] ∧ ∀ c ∈ cs, c ≠ '\n' then some cs else none

/-- Strip `lit1\slit2\s` (the common `Upload\sprotocol\s`-style prefix). -/
def stripCmdHead (lit1 lit2 : List Char) (cs : List Char) : Option (List Char) :=
  match stripLit lit1 cs with
  | none => none
  | some cs1 =>
    match stripSpace cs1 with
    | none => none
    | some cs2 =>
      match stripLit lit2 cs2 with
      | none => none
      | some cs3 => stripSpace cs3

/-- Fullmatch of `lit1\slit2` (`Return\sprotocol\slist` is handled with
`lit2 = protocol\slist` split at its own `\s`). -/
def matchPlain (lit1 lit2 : List Char) (cs : List Char) : Bool :=
  match stripLit lit1 cs with
  | none => false
  | some cs1 =>
    match stripSpace cs1 with
    | none => false
    | some cs2 => stripLit lit2 cs2 = some []

inductive Command
  | returnList
  | printStatus
  | upload (name : Line) (p_word : Line)
  | download (name : Line)
  | start (name : Line)
  | stopProtocolCmd
  | stopServerCmd
deriving DecidableEq

/-- Fullmatch of `lit1\slit2\slit3` (`Return\sprotocol\slist`). -/
def matchPlain3 (lit1 lit2 lit3 : List Char) (cs : List Char) : Bool :=
  match stripCmdHead lit1 lit2 cs with
  | some rest => stripLit lit3 rest = some []
  | none => false

/-- Fullmatch of `lit1\slit2\s(?P<name>.+)` (the `Download protocol` / `Start
protocol` templates). -/
def captureTail (lit1 lit2 : List Char) (cs : List Char) : Option Line :=
  match stripCmdHead lit1 lit2 cs with
  | some rest => matchRest rest
  | none => none

/-- Fullmatch of `lit1\slit2\s(?P<name>\S+)\s(?P<p_word>.+)` (the `Upload
protocol` template). -/
def captureTwo (lit1 lit2 : List Char) (cs : List Char) :
    Option (Line × Line) :=
  match stripCmdHead lit1 lit2 cs with
  | some rest =>
    let name := rest.takeWhile (fun c => !isPySpace c)
    let rest2 := rest.dropWhile (fun c => !isPySpace c)
    if name = [] then none
    else
      match stripSpace rest2 with
      | some pw => (matchRest pw).map (fun p_word => (name, p_word))
      | none => none
  | none => none

/-- The templates of `msg_templates`, tried in the insertion order of
`self._msg_to_meth` and full-matched against the message. -/
def parseCommand (cs : List Char) : Option Command :=
  if matchPlain3 "Return".data "protocol".data "list".data cs then
    some .returnList
  else if matchPlain "Print".data "status".data cs then some .printStatus
  else
    match captureTwo "Upload".data "protocol".data cs with
    | some (name, p_word) => some (.upload name p_word)
    | none =>
      match captureTail "Download".data "protocol".data cs with
      | some name => some (.download name)
      | none =>
        match captureTail "Start".data "protocol".data cs with
        | some name => some (.start name)
        | none =>
          if matchPlain "Stop".data "protocol".data cs then
            some .stopProtocolCmd
          else if matchPlain "Stop".data "server".data cs then
            some .stopServerCmd
          else none

/-- Dispatch of one recognized command to its handler
(`method(**match.groupdict())` in `_protocol_manager`).  The call itself is
not wrapped in any `try`: an exception a handler raises propagates.
`password` is the configured secret, `spawn` the behavior of a process spawned
by `Start protocol` during this step.  The `p_word` capture is compared to the
password file content as a string. -/
def handleCommand (password : String) (spawn : SpawnOutcome) :
    Command → DaemonState → StepOutcome
  | .returnList, s => .serving (sendProtocolList s)
  | .printStatus, s => .serving (sendProtocolStatus s)
  | .upload name p_word, s =>
    .serving (saveProtocol password name (String.mk p_word) s)
  | .download name, s =>
    match sendProtocol name s with
    | .error e => .crashed e s
    | .ok (s', _) => .serving s'
  | .start name, s => .serving (startProtocol name spawn s)
  | .stopProtocolCmd, s =>
    match stopProtocol s with
    | .error e => .crashed e s
    | .ok (s', _) => .serving s'
  | .stopServerCmd, s => stopServer s

/-- Handling of one message taken from the command queue: parse it against the
templates, dispatch on a match, or reply `Error ! Invalid command message`. -/
def handleMessage (password : String) (spawn : SpawnOutcome)
    (message : List Char) (s : DaemonState) : StepOutcome :=
  match parseCommand message with
  | some cmd => handleCommand password spawn cmd s
  | none => .serving (publish "Error ! Invalid command message" s)

/-- The control loop of `_protocol_manager`, run over a queue of pending
messages: it keeps serving until a `DaemonStop` leaves it or an uncaught
exception kills it.  (The loop's bookkeeping that reports a protocol that
ended on its own is independent of dispatch and not modelled.) -/
def runLoop (password : String) (spawn : SpawnOutcome) :
    List (List Char) → DaemonState → StepOutcome
  | [], s => .serving s
  | message :: rest, s =>
    match handleMessage password spawn message s with
    | .serving s' => runLoop password spawn rest s'
    | .stopping s' => .stopping s'
    | .crashed e s' => .crashed e s'

/-! ### Concrete states used by witnesses and counterexamples -/

/-- A daemon state with no protocol started yet, empty folder and queues. -/
def emptyState : DaemonState :=
  { protocol := none, store := [], protocolQueue := [], published := [] }

/-- A process that never exits: the waits after SIGINT, terminate and kill all
time out. -/
def stuckBeh : StopBehavior := { onInt := none, onTerm := none, onKill := none }

/-- A daemon state whose protocol process is alive and stuck. -/
def stuckState : DaemonState :=
  { protocol := some (.running stuckBeh), store := [], protocolQueue := [],
    published := [] }

/-- A daemon state whose protocol process is alive and would exit on SIGINT. -/
def busyState : DaemonState :=
  { protocol := some (.running { onInt := some 0, onTerm := none, onKill := none }),
    store := [], protocolQueue := [], published := [] }

/-- A two-line protocol payload. -/
def demoProto : List Line := [['a', '\n'], ['b', 'c', '\n']]

/-- A daemon state with `demoProto` pending on the protocol-upload queue. -/
def uploadState : DaemonState :=
  { protocol := none, store := [], protocolQueue := [demoProto],
    published := [] }

/-! ## Claims about the process supervisor and the stop escalation -/

/-- C6: the claim says a process that survives the whole
interrupt → terminate → kill escalation is classified as stuck and reported as
`Error ! Could not stop the protocol`.  The source's own structure (the
`poll() is None` branch publishing that reply and returning 1, and the
docstring `Returns: 1 if the protocol couldn't be stopped`) shows that intent,
but the final `wait(10)` after `kill()` sits inside the handler of the second
`except TimeoutExpired` and nothing catches the `TimeoutExpired` it raises for
a process stuck through the kill: `_stop_protocol` raises instead of replying,
as the evaluation of the model at that input shows. -/
theorem stop_stuck_process_raises :
    stopProtocol stuckState = .error .timeoutExpired := rfl

/-- C5: the claim says `StopServer` with a protocol whose `stop()` fails
replies `Error ! Could not stop the current protocol, server not stopped` and
stays in `Serving`.  The source's `if self._stop_protocol():` branch in
`_stop_server` implements exactly that intent, but it is dead code: the only
failure mode of `_stop_protocol` is the uncaught `TimeoutExpired` of C6, which
propagates through `_stop_server` and kills the control loop before any reply,
as the evaluation of the model at a stuck process shows. -/
theorem stop_server_stuck_crashes :
    stopServer stuckState = .crashed .timeoutExpired stuckState := rfl

/-- C7: `_start_protocol` spawns only when `_is_protocol_active` is false; on
an active protocol it replies
`Protocol already running, stop it before starting new one` and leaves the
process slot untouched, so a `Start protocol` immediately after a successful
start (whose process is still alive) is refused. -/
theorem start_protocol_single_slot
    (s sa : DaemonState) (name name2 name3 : Line) (out out2 : SpawnOutcome)
    (beh : StopBehavior)
    (ha : isProtocolActive sa = true) (hi : isProtocolActive s = false) :
    ((startProtocol name3 out sa).protocol = sa.protocol ∧
      (startProtocol name3 out sa).published =
        "Protocol already running, stop it before starting new one"
          :: sa.published) ∧
    (isProtocolActive (startProtocol name (.runs beh) s) = true ∧
      (startProtocol name (.runs beh) s).published =
        "Protocol started" :: s.published ∧
      (startProtocol name2 out2 (startProtocol name (.runs beh) s)).protocol =
        (startProtocol name (.runs beh) s).protocol ∧
      (startProtocol name2 out2 (startProtocol name (.runs beh) s)).published =
        "Protocol already running, stop it before starting new one"
          :: (startProtocol name (.runs beh) s).published) := by
  constructor
  · simp [startProtocol, ha, publish]
  · have h1 : startProtocol name (.runs beh) s =
        publish "Protocol started" { s with protocol := some (.running beh) } := by
      simp [startProtocol, hi]
    have h2 : isProtocolActive
        (publish "Protocol started" { s with protocol := some (.running beh) })
          = true := by
      simp [isProtocolActive, publish, Handle.poll]
    rw [h1]
    refine ⟨h2, rfl, ?_, ?_⟩ <;>
      simp [startProtocol, isProtocolActive, Handle.poll, publish]

/-- Witness for C7 at concrete states. -/
theorem start_protocol_single_slot_witness :
    ((startProtocol [] (.crashes 1) busyState).protocol = busyState.protocol ∧
      (startProtocol [] (.crashes 1) busyState).published =
        "Protocol already running, stop it before starting new one"
          :: busyState.published) ∧
    (isProtocolActive (startProtocol [] (.runs stuckBeh) emptyState) = true ∧
      (startProtocol [] (.runs stuckBeh) emptyState).published =
        "Protocol started" :: emptyState.published ∧
      (startProtocol [] (.crashes 1)
          (startProtocol [] (.runs stuckBeh) emptyState)).protocol =
        (startProtocol [] (.runs stuckBeh) emptyState).protocol ∧
      (startProtocol [] (.crashes 1)
          (startProtocol [] (.runs stuckBeh) emptyState)).published =
        "Protocol already running, stop it before starting new one"
          :: (startProtocol [] (.runs stuckBeh) emptyState).published) :=
  start_protocol_single_slot emptyState busyState [] [] [] (.crashes 1)
    (.crashes 1) stuckBeh rfl rfl

/-- C8: `_save_protocol` with a wrong password only publishes
`Error ! Wrong password`: the `Protocols/` folder and the pending upload queue
are untouched. -/
theorem upload_wrong_password (password : String) (name : Line)
    (p_word : String) (s : DaemonState) (h : p_word ≠ password) :
    (saveProtocol password name p_word s).store = s.store ∧
    (saveProtocol password name p_word s).protocolQueue = s.protocolQueue ∧
    (saveProtocol password name p_word s).published =
      "Error ! Wrong password" :: s.published := by
  simp [saveProtocol, h, publish]

/-- Witness for C8. -/
theorem upload_wrong_password_witness :
    (saveProtocol "pass" ['d'] "wrongpass" emptyState).store =
      emptyState.store ∧
    (saveProtocol "pass" ['d'] "wrongpass" emptyState).protocolQueue =
      emptyState.protocolQueue ∧
    (saveProtocol "pass" ['d'] "wrongpass" emptyState).published =
      "Error ! Wrong password" :: emptyState.published :=
  upload_wrong_password "pass" ['d'] "wrongpass" emptyState (by decide)

/-! ## Claims about the LED indicator derivation -/

/-- C9: a LED entry with value 0 (resting) always has strictly positive
length — a resting interval is split only when strictly longer than the lead
time, so the resting remainder `gap - lead` is positive and in particular a
gap of exactly the lead time is not split into a warning plus a zero-length
rest; every warning entry has length exactly the lead time. -/
theorem led_no_degenerate_resting (orangeMin : ℚ) (pts : List TPoint)
    (p : LedEntry) (hp : p ∈ buildLed orangeMin pts) :
    (p.2 = 0 → 0 < p.1) ∧ (p.2 = 1 → p.1 = orangeMin * 60) := by
  induction pts with
  | nil => simp [buildLed] at hp
  | cons a tail ih =>
    cases tail with
    | nil => simp [buildLed] at hp
    | cons b r =>
      rw [buildLed] at hp
      rcases List.mem_append.mp hp with h | h
      · unfold ledChunks at h
        by_cases hc : (!a.2 && decide (b.1 - a.1 > orangeMin * 60)) = true
        · rw [if_pos hc] at h
          have hgt : orangeMin * 60 < b.1 - a.1 := by
            have h2 := hc
            rw [Bool.and_eq_true] at h2
            exact of_decide_eq_true h2.2
          rcases List.mem_cons.mp h with h1 | h1
          · subst h1
            constructor
            · intro _
              show (0 : ℚ) < (b.1 - a.1) - orangeMin * 60
              linarith
            · intro h0
              simp at h0
          · rcases List.mem_singleton.mp h1 with rfl
            exact ⟨fun h0 => by simp at h0, fun _ => rfl⟩
        · rw [if_neg hc] at h
          rcases List.mem_singleton.mp h with rfl
          exact ⟨fun h0 => by simp at h0, fun h0 => by simp at h0⟩
      · exact ih h

/-- Witness for C9 on the resting entry produced by a 100 s gap with a 60 s
lead time. -/
theorem led_no_degenerate_resting_witness :
    ((0 : ℕ) = 0 → (0 : ℚ) < 40) ∧ ((0 : ℕ) = 1 → (40 : ℚ) = 1 * 60) :=
  led_no_degenerate_resting 1 [(0, false), (100, true)] (40, 0)
    (by norm_num [buildLed, ledChunks])

/-- Sum of the entry lengths contributed by one interval of the merged
timeline. -/
theorem ledChunks_sum (orangeMin : ℚ) (p q : TPoint) :
    ((ledChunks orangeMin p q).map Prod.fst).sum = q.1 - p.1 := by
  unfold ledChunks
  by_cases hc : (!p.2 && decide (q.1 - p.1 > orangeMin * 60)) = true
  · rw [if_pos hc]; simp
  · rw [if_neg hc]; simp

/-- The LED schedule spans exactly the merged timeline. -/
theorem buildLed_sum (orangeMin : ℚ) (p : TPoint) (pts : List TPoint) :
    ((buildLed orangeMin (p :: pts)).map Prod.fst).sum =
      lastTs (p :: pts) - p.1 := by
  induction pts generalizing p with
  | nil => simp [buildLed, lastTs]
  | cons q rest ih =>
    rw [buildLed, List.map_append, List.sum_append, ledChunks_sum, ih]
    have h : lastTs (p :: q :: rest) = lastTs (q :: rest) := by
      simp [lastTs, List.getLast?_cons_cons]
    rw [h]; ring

/-- C3 (amended): an interval that is active, or resting with length at most
the lead time, contributes a single LED entry of its full length with value 2
(active) — a short resting interval is not split and is shown as active, not
resting; and the total emitted duration equals the merged timeline's span. -/
theorem led_active_and_short_resting (orangeMin t1 t2 : ℚ) (v1 v2 : Bool)
    (rest : List TPoint) (p : TPoint) (pts : List TPoint)
    (h : v1 = true ∨ t2 - t1 ≤ orangeMin * 60) :
    buildLed orangeMin ((t1, v1) :: (t2, v2) :: rest) =
      (t2 - t1, 2) :: buildLed orangeMin ((t2, v2) :: rest) ∧
    ((buildLed orangeMin (p :: pts)).map Prod.fst).sum =
      lastTs (p :: pts) - p.1 := by
  refine ⟨?_, buildLed_sum orangeMin p pts⟩
  rw [buildLed]
  have hc : (!((t1, v1) : TPoint).2 && decide (t2 - t1 > orangeMin * 60))
      = false := by
    rcases h with h | h
    · simp [h]
    · simp [not_lt.mpr h]
  unfold ledChunks
  rw [hc]
  simp

/-- Witness for C3's amended claim on an active interval. -/
theorem led_active_and_short_resting_witness :
    buildLed 10 [((0 : ℚ), true), (5, false)] =
      ((5 : ℚ) - 0, 2) :: buildLed 10 [((5 : ℚ), false)] ∧
    ((buildLed 10 [((0 : ℚ), true), (5, false)]).map Prod.fst).sum =
      lastTs [((0 : ℚ), true), (5, false)] - 0 :=
  led_active_and_short_resting 10 0 5 true false [] (0, true) [(5, false)]
    (Or.inl rfl)

/-! ## Claims about the cumulative sum and the redundancy collapse -/

/-- The collapse loop yields adjacent-distinct values, and its first kept
point differs from the original predecessor value `prev`. -/
theorem collapseAux_spec (l : List TPoint) : ∀ prev : Bool,
    List.Chain' (fun p q : TPoint => p.2 ≠ q.2) (collapseAux prev l) ∧
    (∀ q : TPoint, (collapseAux prev l).head? = some q → q.2 ≠ prev) := by
  induction l with
  | nil => intro prev; simp [collapseAux]
  | cons p rest ih =>
    intro prev
    by_cases hp : p.2 = prev
    · rw [collapseAux, if_pos hp]
      refine ⟨(ih p.2).1, fun q hq => ?_⟩
      have hne := (ih p.2).2 q hq
      rw [hp] at hne
      exact hne
    · rw [collapseAux, if_neg hp]
      refine ⟨?_, fun q hq => ?_⟩
      · rw [List.chain'_cons']
        refine ⟨fun q hq => ?_, (ih p.2).1⟩
        exact Ne.symm ((ih p.2).2 q hq)
      · rw [List.head?_cons, Option.some_inj] at hq
        rw [hq] at hp
        exact hp

/-- A collapsed timeline has no two consecutive equal values. -/
theorem collapse_chain (l : List TPoint) :
    List.Chain' (fun p q : TPoint => p.2 ≠ q.2) (collapse l) := by
  cases l with
  | nil => simp [collapse]
  | cons p rest =>
    rw [collapse, List.chain'_cons']
    exact ⟨fun q hq => Ne.symm ((collapseAux_spec rest p.2).2 q hq),
      (collapseAux_spec rest p.2).1⟩

/-- The collapse loop only deletes points. -/
theorem collapseAux_sublist (l : List TPoint) :
    ∀ prev : Bool, (collapseAux prev l).Sublist l := by
  induction l with
  | nil => intro prev; simp [collapseAux]
  | cons p rest ih =>
    intro prev
    by_cases hp : p.2 = prev
    · rw [collapseAux, if_pos hp]
      exact (ih p.2).cons p
    · rw [collapseAux, if_neg hp]
      exact (ih p.2).cons₂ p

theorem collapse_sublist (l : List TPoint) : (collapse l).Sublist l := by
  cases l with
  | nil => simp [collapse]
  | cons p rest =>
    rw [collapse]
    exact (collapseAux_sublist rest p.2).cons₂ p

theorem cumPoints_ne_nil (acc : ℚ) (pr : Segment × Segment)
    (rest : List (Segment × Segment)) : cumPoints acc (pr :: rest) ≠ [] := by
  rcases pr with ⟨⟨t, x⟩, ⟨y, v⟩⟩
  simp [cumPoints]

/-- The last timestamp of the cumulative-sum loop is the accumulator plus the
durations it consumed (the first components of the first elements of the
zipped pairs). -/
theorem cumPoints_lastTs (pairs : List (Segment × Segment)) :
    ∀ acc : ℚ, pairs ≠ [] →
    lastTs (cumPoints acc pairs) =
      acc + (pairs.map (fun pr => pr.1.1)).sum := by
  induction pairs with
  | nil => intro acc h; exact absurd rfl h
  | cons pr rest ih =>
    intro acc _
    rcases pr with ⟨⟨t, x⟩, ⟨y, v⟩⟩
    rw [cumPoints]
    cases rest with
    | nil => simp [cumPoints, lastTs]
    | cons pr2 rest2 =>
      have hne := cumPoints_ne_nil (acc + t) pr2 rest2
      have hcons : lastTs ((acc + t, v) :: cumPoints (acc + t) (pr2 :: rest2)) =
          lastTs (cumPoints (acc + t) (pr2 :: rest2)) := by
        cases hcp : cumPoints (acc + t) (pr2 :: rest2) with
        | nil => exact absurd hcp hne
        | cons a l => simp [lastTs, List.getLast?_cons_cons]
      rw [hcons, ih (acc + t) (by simp)]
      simp
      ring

theorem cumTimeline_ne_nil (segs : List Segment) : cumTimeline segs ≠ [] := by
  cases segs with
  | nil => simp [cumTimeline]
  | cons s0 rest => simp [cumTimeline]

/-- The cumulative timeline of a non-empty segment list ends at the sum of all
durations except the last one: each timestamp marks the boundary where the
*next* segment's flag takes effect, so the loop zips `on[1:-1]` with `on[2:]`
and never adds the last segment's duration. -/
theorem cumTimeline_lastTs (segs : List Segment) (h : segs ≠ []) :
    lastTs (cumTimeline segs) = sumDur segs.dropLast := by
  cases segs with
  | nil => exact absurd rfl h
  | cons s0 rest =>
    rw [cumTimeline]
    cases rest with
    | nil => simp [cumPoints, lastTs, sumDur]
    | cons s1 rest1 =>
      simp only [List.tail_cons]
      have hzip : (s0 :: s1 :: rest1).dropLast.zip (s1 :: rest1) =
          (s0, s1) :: ((s1 :: rest1).dropLast.zip rest1) := by
        simp [List.dropLast]
      have hne : (s0 :: s1 :: rest1).dropLast.zip (s1 :: rest1) ≠ [] := by
        rw [hzip]; simp
      have hlen : ((s0 :: s1 :: rest1).dropLast).length
          ≤ (s1 :: rest1).length := by
        simp
      have hmap : (((s0 :: s1 :: rest1).dropLast.zip (s1 :: rest1)).map
          (fun pr => pr.1.1)).sum = sumDur (s0 :: s1 :: rest1).dropLast := by
        have h1 : ((s0 :: s1 :: rest1).dropLast.zip (s1 :: rest1)).map
            (fun pr : Segment × Segment => pr.1.1) =
            (((s0 :: s1 :: rest1).dropLast.zip (s1 :: rest1)).map
              Prod.fst).map Prod.fst := by
          simp only [List.map_map]
          rfl
        rw [h1, List.map_fst_zip _ _ hlen, sumDur]
      have hcons : lastTs ((0, s0.2) ::
          cumPoints 0 ((s0 :: s1 :: rest1).dropLast.zip (s1 :: rest1))) =
          lastTs (cumPoints 0
            ((s0 :: s1 :: rest1).dropLast.zip (s1 :: rest1))) := by
        cases hcp : cumPoints 0 ((s0 :: s1 :: rest1).dropLast.zip (s1 :: rest1))
          with
        | nil =>
          rw [hzip] at hcp
          exact absurd hcp (cumPoints_ne_nil _ _ _)
        | cons a l => simp [lastTs, List.getLast?_cons_cons]
      rw [hcons, cumPoints_lastTs _ 0 hne, hmap]
      ring

/-- The cumulative points are chained upward from any point at or below the
accumulator, for non-negative durations. -/
theorem cumPoints_chain_le (pairs : List (Segment × Segment)) :
    ∀ (a : TPoint) (acc : ℚ), a.1 ≤ acc →
    (∀ pr ∈ pairs, 0 ≤ pr.1.1) →
    List.Chain (fun p q : TPoint => p.1 ≤ q.1) a (cumPoints acc pairs) := by
  induction pairs with
  | nil => intro a acc _ _; simp [cumPoints]
  | cons pr rest ih =>
    intro a acc ha h0
    rcases pr with ⟨⟨t, x⟩, ⟨y, v⟩⟩
    rw [cumPoints]
    have ht : (0 : ℚ) ≤ t := h0 ((t, x), (y, v)) (by simp)
    refine List.Chain.cons ?_ (ih (acc + t, v) (acc + t) le_rfl ?_)
    · show a.1 ≤ acc + t
      linarith
    · intro pr2 h2
      exact h0 pr2 (List.mem_cons_of_mem _ h2)

/-- In a timeline chained by `≤` on timestamps, every point is at or before
the last timestamp. -/
theorem chain_le_lastTs (l : List TPoint) : ∀ a : TPoint,
    List.Chain (fun p q : TPoint => p.1 ≤ q.1) a l →
    ∀ p ∈ a :: l, p.1 ≤ lastTs (a :: l) := by
  induction l with
  | nil =>
    intro a _ p hp
    rw [List.mem_singleton] at hp
    subst hp
    simp [lastTs]
  | cons b l2 ih =>
    intro a hch p hp
    cases hch with
    | cons hab hch2 =>
      have hlast : lastTs (a :: b :: l2) = lastTs (b :: l2) := by
        simp [lastTs, List.getLast?_cons_cons]
      rw [hlast]
      rcases List.mem_cons.mp hp with h | h
      · subst h
        exact le_trans hab (ih b hch2 b (by simp))
      · exact ih b hch2 p h

/-- Every point of the cumulative timeline lies at or before its last
timestamp (non-negative durations). -/
theorem cumTimeline_le_lastTs (segs : List Segment)
    (h0 : ∀ p ∈ segs, 0 ≤ p.1) :
    ∀ p ∈ cumTimeline segs, p.1 ≤ lastTs (cumTimeline segs) := by
  cases segs with
  | nil =>
    intro p hp
    simp [cumTimeline] at hp
    subst hp
    simp [cumTimeline, lastTs]
  | cons s0 rest =>
    rw [cumTimeline]
    refine chain_le_lastTs _ (0, s0.2) ?_
    refine cumPoints_chain_le _ (0, s0.2) 0 le_rfl ?_
    intro pr hpr
    have hfst : pr.1 ∈ (s0 :: rest).dropLast :=
      (List.of_mem_zip hpr).1
    exact h0 pr.1 ((List.dropLast_sublist _).subset hfst)

/-- C2 (amended): the collapsed per-channel timeline has no two consecutive
equal values; the final timestamp of the cumulative-sum timeline equals the
sum of all segment durations *except the last segment's* (not the sum of all
durations), and the collapse step can only lower the final timestamp further.
-/
theorem channel_timeline_spec (segs : List Segment) (hne : segs ≠ [])
    (h0 : ∀ p ∈ segs, 0 ≤ p.1) :
    List.Chain' (fun p q : TPoint => p.2 ≠ q.2) (channelTimeline segs) ∧
    lastTs (cumTimeline segs) = sumDur segs.dropLast ∧
    lastTs (channelTimeline segs) ≤ sumDur segs.dropLast := by
  have hch : channelTimeline segs = collapse (cumTimeline segs) := by
    rw [channelTimeline, if_neg (by simpa using hne)]
  refine ⟨?_, cumTimeline_lastTs segs hne, ?_⟩
  · rw [hch]; exact collapse_chain _
  · rw [hch, ← cumTimeline_lastTs segs hne]
    rcases hlast : (collapse (cumTimeline segs)).getLast? with _ | q
    · exfalso
      rcases hcum : cumTimeline segs with _ | ⟨p, l⟩
      · exact absurd hcum (cumTimeline_ne_nil segs)
      · rw [hcum, collapse] at hlast
        exact absurd (List.getLast?_eq_none_iff.mp hlast) (by simp)
    · have hq : q ∈ collapse (cumTimeline segs) :=
        List.mem_of_mem_getLast? (by rw [hlast]; rfl)
      have hq2 : q ∈ cumTimeline segs := (collapse_sublist _).subset hq
      have := cumTimeline_le_lastTs segs h0 q hq2
      simpa [lastTs, hlast] using this

/-- Witness for C2 at the spec's own example segment list. -/
theorem channel_timeline_spec_witness :
    List.Chain' (fun p q : TPoint => p.2 ≠ q.2)
      (channelTimeline [((5 : ℚ), false), (10, true), (5, false)]) ∧
    lastTs (cumTimeline [((5 : ℚ), false), (10, true), (5, false)]) =
      sumDur ([((5 : ℚ), false), (10, true), (5, false)] : List Segment).dropLast ∧
    lastTs (channelTimeline [((5 : ℚ), false), (10, true), (5, false)]) ≤
      sumDur ([((5 : ℚ), false), (10, true), (5, false)] : List Segment).dropLast :=
  channel_timeline_spec [((5 : ℚ), false), (10, true), (5, false)]
    (by simp) (by norm_num)

/-- C2 counterexample: for segments `[(5,False),(10,True),(5,False)]` the
collapsed timeline is `[(0,False),(5,True),(15,False)]`, whose final
timestamp 15 differs from the sum 20 of all segment durations. -/
theorem channel_timeline_counterexample :
    channelTimeline [((5 : ℚ), false), (10, true), (5, false)] =
      [(0, false), (5, true), (15, false)] ∧
    lastTs (channelTimeline [((5 : ℚ), false), (10, true), (5, false)]) ≠
      sumDur [((5 : ℚ), false), (10, true), (5, false)] := by
  have h : channelTimeline [((5 : ℚ), false), (10, true), (5, false)] =
      [(0, false), (5, true), (15, false)] := by
    norm_num [channelTimeline, cumTimeline, cumPoints, collapse, collapseAux]
  refine ⟨h, ?_⟩
  rw [h]
  norm_num [lastTs, sumDur]

/-- C3 counterexample: with the default 10-minute lead time the resting
interval `[0, 5)` (length `5 ≤ 600`) is emitted as `(5, 2)` (active), and no
resting entry `(5, 0)` is emitted, contradicting the claim that a short
resting interval is emitted with indicator value resting. -/
theorem led_short_resting_counterexample :
    buildLed 10 [((0 : ℚ), false), (5, true)] = [(5, 2)] ∧
    ((5 : ℚ), (0 : ℕ)) ∉ buildLed 10 [((0 : ℚ), false), (5, true)] := by
  have h : buildLed 10 [((0 : ℚ), false), (5, true)] = [(5, 2)] := by
    norm_num [buildLed, ledChunks]
  exact ⟨h, by rw [h]; simp⟩

/-! ## Claims about the dispatch boundary -/

/-- C4 counterexample: a single `Download protocol ghost` command with an
empty `Protocols/` folder kills the whole control loop — the
`FileNotFoundError` of the `open` in `_send_protocol` is not caught at the
dispatch boundary and no error reply is produced, contradicting the claim
that any handler exception is converted into an error reply and that the loop
never terminates because of a single bad command. -/
theorem download_missing_crashes_loop :
    runLoop "pw" (.crashes 0) ["Download protocol ghost".data] emptyState =
      .crashed .fileNotFound emptyState := by decide

/-- C4 (amended): handler exceptions are *not* caught at the dispatch
boundary.  A `Download protocol` command naming a protocol absent from the
folder makes the dispatched handler raise `FileNotFoundError`, which
propagates and terminates the control loop with the remaining queued commands
unserved; only a message matching no template is answered with
`Error ! Invalid command message` while the loop keeps serving. -/
theorem dispatch_does_not_catch (password : String) (spawn : SpawnOutcome)
    (name : Line) (message msg2 : List Char) (s s2 s' : DaemonState)
    (e : PyExn) (msgs : List (List Char))
    (h1 : storeRead s.store (protoFileName name) = none)
    (h2 : parseCommand message = none)
    (h3 : handleMessage password spawn msg2 s2 = .crashed e s') :
    handleCommand password spawn (.download name) s = .crashed .fileNotFound s ∧
    handleMessage password spawn message s =
      .serving (publish "Error ! Invalid command message" s) ∧
    runLoop password spawn (msg2 :: msgs) s2 = .crashed e s' := by
  refine ⟨?_, ?_, ?_⟩
  · simp [handleCommand, sendProtocol, h1]
  · simp [handleMessage, h2]
  · simp [runLoop, h3]

/-- Witness for C4's amended claim at concrete inputs. -/
theorem dispatch_does_not_catch_witness :
    handleCommand "pw" (.crashes 0) (.download "ghost".data) emptyState =
      .crashed .fileNotFound emptyState ∧
    handleMessage "pw" (.crashes 0) "Make me a sandwich".data emptyState =
      .serving (publish "Error ! Invalid command message" emptyState) ∧
    runLoop "pw" (.crashes 0) ["Download protocol ghost".data] emptyState =
      .crashed .fileNotFound emptyState :=
  dispatch_does_not_catch "pw" (.crashes 0) "ghost".data
    "Make me a sandwich".data "Download protocol ghost".data emptyState
    emptyState emptyState .fileNotFound [] (by decide) (by decide) (by decide)

/-! ## Claim about the protocol store round trip -/

/-- Splitting off one line: reading a file that starts with a newline-free
body followed by a newline yields that line and continues. -/
theorem splitAux_line (body : List Char) (hb : '\n' ∉ body) :
    ∀ (cur rest : List Char),
    splitAux cur (body ++ '\n' :: rest) =
      ((cur.reverse ++ body) ++ ['\n']) :: splitAux [] rest := by
  induction body with
  | nil =>
    intro cur rest
    simp [splitAux]
  | cons c body' ih =>
    intro cur rest
    have hc : c ≠ '\n' := by
      intro h
      exact hb (by rw [h]; simp)
    rw [List.cons_append, splitAux, if_neg hc,
      ih (fun h => hb (List.mem_cons_of_mem _ h)) (c :: cur) rest]
    simp

/-- Writing a list of newline-terminated lines to a file and reading the file
back as lines is the identity. -/
theorem splitLines_joinLines (lines : List Line)
    (h : ∀ l ∈ lines, l.getLast? = some '\n' ∧ '\n' ∉ l.dropLast) :
    splitLines (joinLines lines) = lines := by
  induction lines with
  | nil => rfl
  | cons l ls ih =>
    obtain ⟨hlast, hbody⟩ := h l (by simp)
    have hne : l ≠ [] := by
      intro h0
      rw [h0] at hlast
      simp at hlast
    have hg : l.getLast hne = '\n' := by
      have heq := List.getLast?_eq_getLast_of_ne_nil hne
      rw [heq] at hlast
      exact Option.some_inj.mp hlast
    have hl : l.dropLast ++ ['\n'] = l := by
      rw [← hg]
      exact List.dropLast_append_getLast hne
    have hjoin : joinLines (l :: ls) = l.dropLast ++ '\n' :: joinLines ls := by
      rw [joinLines, List.flatten_cons, ← joinLines, ← hl]
      simp
    have htail : splitAux [] (joinLines ls) = ls :=
      ih (fun l2 hl2 => h l2 (List.mem_cons_of_mem _ hl2))
    rw [splitLines, hjoin, splitAux_line l.dropLast hbody [] (joinLines ls),
      htail]
    simp [hl]

/-- C10: committing a payload of newline-terminated lines to the store via the
upload handler (correct password, payload pending on the upload queue) and
loading it back via the download handler returns exactly the same lines. -/
theorem store_round_trip (password : String) (name : Line)
    (proto : List Line) (rest : List (List Line)) (s : DaemonState)
    (hq : s.protocolQueue = proto :: rest)
    (hwf : ∀ l ∈ proto, l.getLast? = some '\n' ∧ '\n' ∉ l.dropLast) :
    ∃ s2 : DaemonState,
      sendProtocol name (saveProtocol password name password s) =
        .ok (s2, proto) := by
  have hsave : saveProtocol password name password s =
      publish "Protocol successfully uploaded"
        { s with store := (protoFileName name, joinLines proto) :: s.store,
                 protocolQueue := rest } := by
    rw [saveProtocol, if_neg (by simp), hq]
  have hread : storeRead
      (publish "Protocol successfully uploaded"
        { s with store := (protoFileName name, joinLines proto) :: s.store,
                 protocolQueue := rest }).store (protoFileName name) =
      some (joinLines proto) := by
    simp [storeRead, publish]
  rw [hsave]
  have hsend : sendProtocol name
      (publish "Protocol successfully uploaded"
        { s with store := (protoFileName name, joinLines proto) :: s.store,
                 protocolQueue := rest }) =
      .ok (publish "Protocol successfully downloaded"
        (publish "Protocol successfully uploaded"
          { s with store := (protoFileName name, joinLines proto) :: s.store,
                   protocolQueue := rest }),
        splitLines (joinLines proto)) := by
    simp [sendProtocol, hread]
  rw [hsend, splitLines_joinLines proto hwf]
  exact ⟨_, rfl⟩

/-- Witness for C10 on a concrete two-line payload. -/
theorem store_round_trip_witness :
    ∃ s2 : DaemonState,
      sendProtocol "demo".data
          (saveProtocol "pw" "demo".data "pw" uploadState) =
        .ok (s2, demoProto) :=
  store_round_trip "pw" "demo".data demoProto [] uploadState rfl (by decide)

/-! ## Claim about the OR-merge of the two timelines -/

/-- Every timestamp of the sorted merge comes from one of the inputs. -/
theorem mem_mergeTs (xs ys : List ℚ) (t : ℚ) (h : t ∈ mergeTs xs ys) :
    t ∈ xs ∨ t ∈ ys := by
  induction xs, ys using mergeTs.induct with
  | case1 ys => rw [mergeTs] at h; exact Or.inr h
  | case2 x xs => rw [mergeTs] at h; exact Or.inl h
  | case3 x xs y ys hlt ih =>
    rw [mergeTs, if_pos hlt] at h
    rcases List.mem_cons.mp h with rfl | h2
    · exact Or.inl (by simp)
    · rcases ih h2 with h3 | h3
      · exact Or.inl (List.mem_cons_of_mem _ h3)
      · exact Or.inr h3
  | case4 x xs y ys hnlt hlt ih =>
    rw [mergeTs, if_neg hnlt, if_pos hlt] at h
    rcases List.mem_cons.mp h with rfl | h2
    · exact Or.inr (by simp)
    · rcases ih h2 with h3 | h3
      · exact Or.inl h3
      · exact Or.inr (List.mem_cons_of_mem _ h3)
  | case5 x xs y ys hnlt hnlt2 ih =>
    rw [mergeTs, if_neg hnlt, if_neg hnlt2] at h
    rcases List.mem_cons.mp h with rfl | h2
    · exact Or.inl (by simp)
    · rcases ih h2 with h3 | h3
      · exact Or.inl (List.mem_cons_of_mem _ h3)
      · exact Or.inr (List.mem_cons_of_mem _ h3)

/-- The merge loop emits the larger of the two current timestamps. -/
theorem orPoint_fst (m e : TPoint) : (orPoint m e).1 = max m.1 e.1 := by
  unfold orPoint
  rcases lt_trichotomy m.1 e.1 with h | h | h
  · rw [if_neg (by exact not_lt.mpr h.le), if_pos h]
    exact (max_eq_right h.le).symm
  · rw [if_neg (by rw [h]; exact lt_irrefl _), if_neg (by rw [h]; exact lt_irrefl _)]
    rw [h, max_self]
  · rw [if_pos h]
    exact (max_eq_left h.le).symm

/-- The merge loop emits the OR of the two current values. -/
theorem orPoint_snd (m e : TPoint) : (orPoint m e).2 = (m.2 || e.2) := by
  unfold orPoint
  split
  · rfl
  · split
    · rfl
    · rfl

theorem lastTs_cons_cons (a b : TPoint) (l : List TPoint) :
    lastTs (a :: b :: l) = lastTs (b :: l) := by
  simp [lastTs, List.getLast?_cons_cons]

theorem lastTs_single (a : TPoint) : lastTs [a] = a.1 := by
  simp [lastTs]

/-- Value in effect at `t` when the head is the only point at or before `t`. -/
theorem valueAt_head (m : TPoint) (ms : List TPoint) (t : ℚ) (h1 : m.1 ≤ t)
    (h2 : ∀ p ∈ ms, t < p.1) : valueAt (m :: ms) t = m.2 := by
  unfold valueAt
  rw [List.filter_cons_of_pos (by simpa using h1)]
  have hnil : ms.filter (fun p : TPoint => p.1 ≤ t) = [] := by
    rw [List.filter_eq_nil_iff]
    intro q hq
    simpa using not_le.mpr (h2 q hq)
  rw [hnil]
  rfl

/-- Dropping a leading point does not change the value in effect at `t` when a
later point is already in effect. -/
theorem valueAt_cons_of_le (a : TPoint) (l : List TPoint) (t : ℚ)
    (hw : ∃ p ∈ l, p.1 ≤ t) : valueAt (a :: l) t = valueAt l t := by
  obtain ⟨q, hq, hqt⟩ := hw
  have hne : l.filter (fun p : TPoint => p.1 ≤ t) ≠ [] := by
    intro h0
    have := List.filter_eq_nil_iff.mp h0 q hq
    simp [hqt] at this
  unfold valueAt
  by_cases ha : a.1 ≤ t
  · rw [List.filter_cons_of_pos (by simpa using ha)]
    rcases hf : l.filter (fun p : TPoint => p.1 ≤ t) with _ | ⟨b, bs⟩
    · exact absurd hf hne
    · rw [List.getLast?_cons_cons]
  · rw [List.filter_cons_of_neg (by simpa using ha)]

/-- The timestamps of the merged list are the head boundary followed by the
sorted union of the remaining boundaries of the two inputs (a tie advances
both inputs and is emitted once). -/
theorem buildActive_ts (n : ℕ) :
    ∀ (m e : TPoint) (ms es : List TPoint),
    ms.length + es.length ≤ n →
    List.Pairwise (fun p q : TPoint => p.1 < q.1) (m :: ms) →
    List.Pairwise (fun p q : TPoint => p.1 < q.1) (e :: es) →
    (∀ p ∈ ms, e.1 < p.1) → (∀ p ∈ es, m.1 < p.1) →
    (buildActive (m :: ms) (e :: es)).map Prod.fst =
      max m.1 e.1 :: mergeTs (ms.map Prod.fst) (es.map Prod.fst) := by
  induction n with
  | zero =>
    intro m e ms es hlen _ _ _ _
    have hms : ms = [] := List.eq_nil_of_length_eq_zero (by omega)
    have hes : es = [] := List.eq_nil_of_length_eq_zero (by omega)
    subst hms; subst hes
    simp [buildActive, mergeTs, orPoint_fst]
  | succ n ih =>
    intro m e ms es hlen hsm hse hc1 hc2
    cases ms with
    | nil =>
      cases es with
      | nil => simp [buildActive, mergeTs, orPoint_fst]
      | cons e2 es' => simp [buildActive, mergeTs, orPoint_fst]
    | cons m2 ms' =>
      cases es with
      | nil => simp [buildActive, mergeTs, orPoint_fst]
      | cons e2 es' =>
        have hmem2 : e2.1 < m2.1 ∨ m2.1 < e2.1 ∨ m2.1 = e2.1 := by
          rcases lt_trichotomy m2.1 e2.1 with h | h | h
          · exact Or.inr (Or.inl h)
          · exact Or.inr (Or.inr h)
          · exact Or.inl h
        rcases hmem2 with hgt | hlt | heq
        · -- next mecha later than next elec: advance elec
          have hb : buildActive (m :: m2 :: ms') (e :: e2 :: es') =
              orPoint m e :: buildActive (m :: m2 :: ms') (e2 :: es') := by
            rw [buildActive, if_pos hgt]
          have hrec := ih m e2 (m2 :: ms') es'
            (by simp at hlen ⊢; omega) hsm hse.of_cons
            (by
              intro p hp
              rcases List.mem_cons.mp hp with rfl | hp2
              · exact hgt
              · exact lt_trans hgt (List.rel_of_pairwise_cons hsm.of_cons hp2))
            (fun p hp => hc2 p (List.mem_cons_of_mem _ hp))
          have hmax : max m.1 e2.1 = e2.1 :=
            max_eq_right (le_of_lt (hc2 e2 (by simp)))
          rw [hb, List.map_cons, hrec, orPoint_fst, hmax]
          have hmg : mergeTs ((m2 :: ms').map Prod.fst)
              ((e2 :: es').map Prod.fst) =
              e2.1 :: mergeTs ((m2 :: ms').map Prod.fst)
                (es'.map Prod.fst) := by
            simp only [List.map_cons]
            rw [mergeTs, if_neg (not_lt.mpr (le_of_lt hgt)), if_pos hgt]
          rw [hmg]
        · -- next elec later than next mecha: advance mecha
          have hb : buildActive (m :: m2 :: ms') (e :: e2 :: es') =
              orPoint m e :: buildActive (m2 :: ms') (e :: e2 :: es') := by
            rw [buildActive, if_neg (not_lt.mpr (le_of_lt hlt)), if_pos hlt]
          have hrec := ih m2 e ms' (e2 :: es')
            (by simp at hlen ⊢; omega) hsm.of_cons hse
            (fun p hp => hc1 p (List.mem_cons_of_mem _ hp))
            (by
              intro p hp
              rcases List.mem_cons.mp hp with rfl | hp2
              · exact hlt
              · exact lt_trans hlt (List.rel_of_pairwise_cons hse.of_cons hp2))
          have hmax : max m2.1 e.1 = m2.1 :=
            max_eq_left (le_of_lt (hc1 m2 (by simp)))
          rw [hb, List.map_cons, hrec, orPoint_fst, hmax]
          have hmg : mergeTs ((m2 :: ms').map Prod.fst)
              ((e2 :: es').map Prod.fst) =
              m2.1 :: mergeTs (ms'.map Prod.fst)
                ((e2 :: es').map Prod.fst) := by
            simp only [List.map_cons]
            rw [mergeTs, if_pos hlt]
          rw [hmg]
        · -- tie on the next boundary: advance both, emit once
          have hb : buildActive (m :: m2 :: ms') (e :: e2 :: es') =
              orPoint m e :: buildActive (m2 :: ms') (e2 :: es') := by
            rw [buildActive, if_neg (by rw [heq]; exact lt_irrefl _),
              if_neg (by rw [heq]; exact lt_irrefl _)]
          have hrec := ih m2 e2 ms' es'
            (by simp at hlen ⊢; omega) hsm.of_cons hse.of_cons
            (by
              intro p hp
              rw [← heq]
              exact List.rel_of_pairwise_cons hsm.of_cons hp)
            (by
              intro p hp
              rw [heq]
              exact List.rel_of_pairwise_cons hse.of_cons hp)
          have hmax : max m2.1 e2.1 = m2.1 := by rw [heq, max_self]
          rw [hb, List.map_cons, hrec, orPoint_fst, hmax]
          have hmg : mergeTs ((m2 :: ms').map Prod.fst)
              ((e2 :: es').map Prod.fst) =
              m2.1 :: mergeTs (ms'.map Prod.fst) (es'.map Prod.fst) := by
            simp only [List.map_cons]
            rw [mergeTs, if_neg (by rw [heq]; exact lt_irrefl _),
              if_neg (by rw [heq]; exact lt_irrefl _)]
          rw [hmg]

/-- Every merged point lies at or after both current boundaries. -/
theorem buildActive_lb (m e : TPoint) (ms es : List TPoint)
    (hsm : List.Pairwise (fun p q : TPoint => p.1 < q.1) (m :: ms))
    (hse : List.Pairwise (fun p q : TPoint => p.1 < q.1) (e :: es))
    (hc1 : ∀ p ∈ ms, e.1 < p.1) (hc2 : ∀ p ∈ es, m.1 < p.1) :
    ∀ p ∈ buildActive (m :: ms) (e :: es), m.1 ≤ p.1 ∧ e.1 ≤ p.1 := by
  intro p hp
  have hts := buildActive_ts (ms.length + es.length) m e ms es le_rfl
    hsm hse hc1 hc2
  have hmem : p.1 ∈ (buildActive (m :: ms) (e :: es)).map Prod.fst :=
    List.mem_map_of_mem _ hp
  rw [hts] at hmem
  rcases List.mem_cons.mp hmem with heq | hmem2
  · rw [heq]
    exact ⟨le_max_left _ _, le_max_right _ _⟩
  · rcases mem_mergeTs _ _ _ hmem2 with h3 | h3
    · obtain ⟨q, hq, hq2⟩ := List.mem_map.mp h3
      rw [← hq2]
      exact ⟨le_of_lt (List.rel_of_pairwise_cons hsm hq),
        le_of_lt (hc1 q hq)⟩
    · obtain ⟨q, hq, hq2⟩ := List.mem_map.mp h3
      rw [← hq2]
      exact ⟨le_of_lt (hc2 q hq),
        le_of_lt (List.rel_of_pairwise_cons hse hq)⟩

/-- The point the merge loop emits carries the OR of the values in effect on
the two inputs at its boundary. -/
theorem orPoint_value (m e : TPoint) (ms es : List TPoint)
    (hsm : List.Pairwise (fun p q : TPoint => p.1 < q.1) (m :: ms))
    (hse : List.Pairwise (fun p q : TPoint => p.1 < q.1) (e :: es))
    (hc1 : ∀ p ∈ ms, e.1 < p.1) (hc2 : ∀ p ∈ es, m.1 < p.1) :
    (orPoint m e).2 =
      (valueAt (m :: ms) (orPoint m e).1 ||
        valueAt (e :: es) (orPoint m e).1) := by
  rw [orPoint_snd, orPoint_fst]
  have h1 : valueAt (m :: ms) (max m.1 e.1) = m.2 :=
    valueAt_head m ms _ (le_max_left _ _)
      (fun q hq => max_lt (List.rel_of_pairwise_cons hsm hq) (hc1 q hq))
  have h2 : valueAt (e :: es) (max m.1 e.1) = e.2 :=
    valueAt_head e es _ (le_max_right _ _)
      (fun q hq => max_lt (hc2 q hq) (List.rel_of_pairwise_cons hse hq))
  rw [h1, h2]

/-- Up to the earlier of the two inputs' last boundaries, every merged point's
value is the OR of the two values in effect there. -/
theorem buildActive_values (n : ℕ) :
    ∀ (m e : TPoint) (ms es : List TPoint),
    ms.length + es.length ≤ n →
    List.Pairwise (fun p q : TPoint => p.1 < q.1) (m :: ms) →
    List.Pairwise (fun p q : TPoint => p.1 < q.1) (e :: es) →
    (∀ p ∈ ms, e.1 < p.1) → (∀ p ∈ es, m.1 < p.1) →
    ∀ p ∈ buildActive (m :: ms) (e :: es),
      p.1 ≤ min (lastTs (m :: ms)) (lastTs (e :: es)) →
      p.2 = (valueAt (m :: ms) p.1 || valueAt (e :: es) p.1) := by
  induction n with
  | zero =>
    intro m e ms es hlen hsm hse hc1 hc2 p hp _
    have hms : ms = [] := List.eq_nil_of_length_eq_zero (by omega)
    have hes : es = [] := List.eq_nil_of_length_eq_zero (by omega)
    subst hms; subst hes
    simp only [buildActive, List.mem_singleton] at hp
    subst hp
    exact orPoint_value m e [] [] hsm hse hc1 hc2
  | succ n ih =>
    intro m e ms es hlen hsm hse hc1 hc2 p hp hcond
    cases ms with
    | nil =>
      cases es with
      | nil =>
        simp only [buildActive, List.mem_singleton] at hp
        subst hp
        exact orPoint_value m e [] [] hsm hse hc1 hc2
      | cons e2 es' =>
        simp only [buildActive] at hp
        rcases List.mem_cons.mp hp with rfl | hp2
        · exact orPoint_value m e [] (e2 :: es') hsm hse hc1 hc2
        · exfalso
          have hlt : m.1 < p.1 := hc2 p hp2
          have : p.1 ≤ m.1 := by
            have := le_trans hcond (min_le_left _ _)
            rwa [lastTs_single] at this
          linarith
    | cons m2 ms' =>
      cases es with
      | nil =>
        simp only [buildActive] at hp
        rcases List.mem_cons.mp hp with rfl | hp2
        · exact orPoint_value m e (m2 :: ms') [] hsm hse hc1 hc2
        · exfalso
          have hlt : e.1 < p.1 := hc1 p hp2
          have : p.1 ≤ e.1 := by
            have := le_trans hcond (min_le_right _ _)
            rwa [lastTs_single] at this
          linarith
      | cons e2 es' =>
        have hmem2 : e2.1 < m2.1 ∨ m2.1 < e2.1 ∨ m2.1 = e2.1 := by
          rcases lt_trichotomy m2.1 e2.1 with h | h | h
          · exact Or.inr (Or.inl h)
          · exact Or.inr (Or.inr h)
          · exact Or.inl h
        rcases hmem2 with hgt | hlt | heq
        · -- advance elec
          have hc1' : ∀ q ∈ m2 :: ms', e2.1 < q.1 := by
            intro q hq
            rcases List.mem_cons.mp hq with rfl | hq2
            · exact hgt
            · exact lt_trans hgt (List.rel_of_pairwise_cons hsm.of_cons hq2)
          have hc2' : ∀ q ∈ es', m.1 < q.1 :=
            fun q hq => hc2 q (List.mem_cons_of_mem _ hq)
          have hb : buildActive (m :: m2 :: ms') (e :: e2 :: es') =
              orPoint m e :: buildActive (m :: m2 :: ms') (e2 :: es') := by
            rw [buildActive, if_pos hgt]
          rw [hb] at hp
          rcases List.mem_cons.mp hp with rfl | hp2
          · exact orPoint_value m e (m2 :: ms') (e2 :: es') hsm hse hc1 hc2
          · have hlb := buildActive_lb m e2 (m2 :: ms') es' hsm hse.of_cons
              hc1' hc2' p hp2
            have hcond' : p.1 ≤ min (lastTs (m :: m2 :: ms'))
                (lastTs (e2 :: es')) := by
              rwa [lastTs_cons_cons e e2 es'] at hcond
            have hval := ih m e2 (m2 :: ms') es'
              (by simp at hlen ⊢; omega) hsm hse.of_cons hc1' hc2' p hp2 hcond'
            rw [hval]
            have htr : valueAt (e :: e2 :: es') p.1 =
                valueAt (e2 :: es') p.1 :=
              valueAt_cons_of_le e (e2 :: es') p.1 ⟨e2, by simp, hlb.2⟩
            rw [htr]
        · -- advance mecha
          have hc1' : ∀ q ∈ ms', e.1 < q.1 :=
            fun q hq => hc1 q (List.mem_cons_of_mem _ hq)
          have hc2' : ∀ q ∈ e2 :: es', m2.1 < q.1 := by
            intro q hq
            rcases List.mem_cons.mp hq with rfl | hq2
            · exact hlt
            · exact lt_trans hlt (List.rel_of_pairwise_cons hse.of_cons hq2)
          have hb : buildActive (m :: m2 :: ms') (e :: e2 :: es') =
              orPoint m e :: buildActive (m2 :: ms') (e :: e2 :: es') := by
            rw [buildActive, if_neg (not_lt.mpr (le_of_lt hlt)), if_pos hlt]
          rw [hb] at hp
          rcases List.mem_cons.mp hp with rfl | hp2
          · exact orPoint_value m e (m2 :: ms') (e2 :: es') hsm hse hc1 hc2
          · have hlb := buildActive_lb m2 e ms' (e2 :: es') hsm.of_cons hse
              hc1' hc2' p hp2
            have hcond' : p.1 ≤ min (lastTs (m2 :: ms'))
                (lastTs (e :: e2 :: es')) := by
              rwa [lastTs_cons_cons m m2 ms'] at hcond
            have hval := ih m2 e ms' (e2 :: es')
              (by simp at hlen ⊢; omega) hsm.of_cons hse hc1' hc2' p hp2 hcond'
            rw [hval]
            have htr : valueAt (m :: m2 :: ms') p.1 =
                valueAt (m2 :: ms') p.1 :=
              valueAt_cons_of_le m (m2 :: ms') p.1 ⟨m2, by simp, hlb.1⟩
            rw [htr]
        · -- tie: advance both
          have hc1' : ∀ q ∈ ms', e2.1 < q.1 := by
            intro q hq
            rw [← heq]
            exact List.rel_of_pairwise_cons hsm.of_cons hq
          have hc2' : ∀ q ∈ es', m2.1 < q.1 := by
            intro q hq
            rw [heq]
            exact List.rel_of_pairwise_cons hse.of_cons hq
          have hb : buildActive (m :: m2 :: ms') (e :: e2 :: es') =
              orPoint m e :: buildActive (m2 :: ms') (e2 :: es') := by
            rw [buildActive, if_neg (by rw [heq]; exact lt_irrefl _),
              if_neg (by rw [heq]; exact lt_irrefl _)]
          rw [hb] at hp
          rcases List.mem_cons.mp hp with rfl | hp2
          · exact orPoint_value m e (m2 :: ms') (e2 :: es') hsm hse hc1 hc2
          · have hlb := buildActive_lb m2 e2 ms' es' hsm.of_cons hse.of_cons
              hc1' hc2' p hp2
            have hcond' : p.1 ≤ min (lastTs (m2 :: ms'))
                (lastTs (e2 :: es')) := by
              rw [lastTs_cons_cons m m2 ms', lastTs_cons_cons e e2 es'] at hcond
              exact hcond
            have hval := ih m2 e2 ms' es'
              (by simp at hlen ⊢; omega) hsm.of_cons hse.of_cons hc1' hc2'
              p hp2 hcond'
            rw [hval]
            have htr1 : valueAt (m :: m2 :: ms') p.1 =
                valueAt (m2 :: ms') p.1 :=
              valueAt_cons_of_le m (m2 :: ms') p.1 ⟨m2, by simp, hlb.1⟩
            have htr2 : valueAt (e :: e2 :: es') p.1 =
                valueAt (e2 :: es') p.1 :=
              valueAt_cons_of_le e (e2 :: es') p.1 ⟨e2, by simp, hlb.2⟩
            rw [htr1, htr2]

/-- A strict timestamp chain gives strict pairwise ordering. -/
theorem chain_lt_pairwise : ∀ (l : List TPoint) (a : TPoint),
    List.Chain (fun p q : TPoint => p.1 < q.1) a l →
    List.Pairwise (fun p q : TPoint => p.1 < q.1) (a :: l) := by
  intro l
  induction l with
  | nil => intro a _; simp
  | cons b l2 ih =>
    intro a hch
    cases hch with
    | cons hab h2 =>
      have hp := ih b h2
      rw [List.pairwise_cons]
      refine ⟨?_, hp⟩
      intro q hq
      rcases List.mem_cons.mp hq with rfl | hq2
      · exact hab
      · exact lt_trans hab (List.rel_of_pairwise_cons hp hq2)

/-- With strictly positive durations the cumulative points climb strictly. -/
theorem cumPoints_chain_lt (pairs : List (Segment × Segment)) :
    ∀ (a : TPoint) (acc : ℚ), a.1 ≤ acc →
    (∀ pr ∈ pairs, 0 < pr.1.1) →
    List.Chain (fun p q : TPoint => p.1 < q.1) a (cumPoints acc pairs) := by
  induction pairs with
  | nil => intro a acc _ _; simp [cumPoints]
  | cons pr rest ih =>
    intro a acc ha h0
    rcases pr with ⟨⟨t, x⟩, ⟨y, v⟩⟩
    rw [cumPoints]
    have ht : (0 : ℚ) < t := h0 ((t, x), (y, v)) (by simp)
    refine List.Chain.cons ?_ (ih (acc + t, v) (acc + t) le_rfl ?_)
    · show a.1 < acc + t
      linarith
    · intro pr2 h2
      exact h0 pr2 (List.mem_cons_of_mem _ h2)

/-- With strictly positive durations the cumulative timeline's timestamps are
strictly increasing. -/
theorem cumTimeline_pairwise (segs : List Segment)
    (hpos : ∀ p ∈ segs, 0 < p.1) :
    List.Pairwise (fun p q : TPoint => p.1 < q.1) (cumTimeline segs) := by
  cases segs with
  | nil => simp [cumTimeline]
  | cons s0 rest =>
    rw [cumTimeline]
    apply chain_lt_pairwise
    apply cumPoints_chain_lt _ _ _ le_rfl
    intro pr hpr
    exact hpos pr.1 ((List.dropLast_sublist _).subset (List.of_mem_zip hpr).1)

/-- The collapsed per-channel timeline keeps strictly increasing timestamps. -/
theorem channelTimeline_pairwise (segs : List Segment)
    (hpos : ∀ p ∈ segs, 0 < p.1) :
    List.Pairwise (fun p q : TPoint => p.1 < q.1) (channelTimeline segs) := by
  rw [channelTimeline]
  by_cases hsegs : segs.isEmpty
  · rw [if_pos hsegs]
    exact cumTimeline_pairwise segs hpos
  · rw [if_neg hsegs]
    exact List.Pairwise.sublist (collapse_sublist _)
      (cumTimeline_pairwise segs hpos)

/-- Every per-channel timeline starts with a point at timestamp 0. -/
theorem channelTimeline_cons (segs : List Segment) :
    ∃ (b : Bool) (l : List TPoint), channelTimeline segs = (0, b) :: l := by
  cases segs with
  | nil => exact ⟨false, [], by simp [channelTimeline, cumTimeline]⟩
  | cons s0 rest =>
    refine ⟨s0.2, collapseAux s0.2
      (cumPoints 0 ((s0 :: rest).dropLast.zip (s0 :: rest).tail)), ?_⟩
    rw [channelTimeline, if_neg (by simp)]
    rw [cumTimeline, collapse]

/-- C1 (amended): for segment lists with positive durations, the merged
timeline has exactly one point at each distinct timestamp boundary of the two
per-channel timelines (a tie in both inputs is emitted once), and at every
boundary up to the earlier input's last boundary the emitted value is the OR
of the two values in effect.  (Beyond that boundary the source extends the
result with the longer input's remaining points verbatim, without OR-ing in
the exhausted input's final value, and no second collapse pass is applied —
see the counterexample.) -/
theorem merged_or_boundaries (mSegs eSegs : List Segment)
    (hm : ∀ p ∈ mSegs, 0 < p.1) (he : ∀ p ∈ eSegs, 0 < p.1) :
    (buildActive (channelTimeline mSegs) (channelTimeline eSegs)).map
        Prod.fst =
      mergeTs ((channelTimeline mSegs).map Prod.fst)
        ((channelTimeline eSegs).map Prod.fst) ∧
    (∀ p ∈ buildActive (channelTimeline mSegs) (channelTimeline eSegs),
      p.1 ≤ min (lastTs (channelTimeline mSegs))
          (lastTs (channelTimeline eSegs)) →
      p.2 = (valueAt (channelTimeline mSegs) p.1 ||
        valueAt (channelTimeline eSegs) p.1)) := by
  obtain ⟨bm, ml, hM⟩ := channelTimeline_cons mSegs
  obtain ⟨be, el, hE⟩ := channelTimeline_cons eSegs
  have hPM := channelTimeline_pairwise mSegs hm
  have hPE := channelTimeline_pairwise eSegs he
  rw [hM] at hPM
  rw [hE] at hPE
  have hc1 : ∀ p ∈ ml, ((0 : ℚ), be).1 < p.1 :=
    fun p hp => List.rel_of_pairwise_cons hPM hp
  have hc2 : ∀ p ∈ el, ((0 : ℚ), bm).1 < p.1 :=
    fun p hp => List.rel_of_pairwise_cons hPE hp
  rw [hM, hE]
  constructor
  · have hts := buildActive_ts (ml.length + el.length) (0, bm) (0, be) ml el
      le_rfl hPM hPE hc1 hc2
    rw [hts]
    have hmg : mergeTs (((0, bm) :: ml).map Prod.fst)
        (((0, be) :: el).map Prod.fst) =
        (0 : ℚ) :: mergeTs (ml.map Prod.fst) (el.map Prod.fst) := by
      simp only [List.map_cons]
      rw [mergeTs, if_neg (lt_irrefl _), if_neg (lt_irrefl _)]
    rw [hmg]
    norm_num
  · intro p hp hcond
    exact buildActive_values (ml.length + el.length) (0, bm) (0, be) ml el
      le_rfl hPM hPE hc1 hc2 p hp hcond

/-- Witness for C1's amended claim at concrete segment lists. -/
theorem merged_or_boundaries_witness :
    (buildActive (channelTimeline [((1 : ℚ), true)])
        (channelTimeline ([] : List Segment))).map Prod.fst =
      mergeTs ((channelTimeline [((1 : ℚ), true)]).map Prod.fst)
        ((channelTimeline ([] : List Segment)).map Prod.fst) ∧
    (∀ p ∈ buildActive (channelTimeline [((1 : ℚ), true)])
        (channelTimeline ([] : List Segment)),
      p.1 ≤ min (lastTs (channelTimeline [((1 : ℚ), true)]))
          (lastTs (channelTimeline ([] : List Segment))) →
      p.2 = (valueAt (channelTimeline [((1 : ℚ), true)]) p.1 ||
        valueAt (channelTimeline ([] : List Segment)) p.1)) :=
  merged_or_boundaries [((1 : ℚ), true)] [] (by norm_num) (by simp)

/-- C1 counterexample: for mechanical segments `[(20,True)]` (timeline
`[(0,True)]`) and electrical segments `[(5,False),(5,True),(5,False)]`
(timeline `[(0,False),(5,True),(10,False)]`), the merged list is
`[(0,True),(5,True),(10,False)]`: it has two consecutive points with equal
values (no second collapse pass), and its point at boundary 10 carries
`False` although the mechanical value in effect there is `True`, so the OR of
the values in effect is `True` — the tail of the longer input is appended
verbatim. -/
theorem merged_or_counterexample :
    buildActive (channelTimeline [((20 : ℚ), true)])
        (channelTimeline [((5 : ℚ), false), (5, true), (5, false)]) =
      [(0, true), (5, true), (10, false)] ∧
    ¬ List.Chain' (fun p q : TPoint => p.2 ≠ q.2)
      (buildActive (channelTimeline [((20 : ℚ), true)])
        (channelTimeline [((5 : ℚ), false), (5, true), (5, false)])) ∧
    valueAt (channelTimeline [((20 : ℚ), true)]) 10 = true ∧
    ((10 : ℚ), false) ∈
      buildActive (channelTimeline [((20 : ℚ), true)])
        (channelTimeline [((5 : ℚ), false), (5, true), (5, false)]) := by
  have h : buildActive (channelTimeline [((20 : ℚ), true)])
      (channelTimeline [((5 : ℚ), false), (5, true), (5, false)]) =
      [(0, true), (5, true), (10, false)] := by
    norm_num [channelTimeline, cumTimeline, cumPoints, collapse, collapseAux,
      buildActive, orPoint]
  refine ⟨h, ?_, ?_, ?_⟩
  · rw [h]
    intro hch
    rw [List.chain'_cons] at hch
    exact hch.1 rfl
  · norm_num [channelTimeline, cumTimeline, cumPoints, collapse, collapseAux,
      valueAt]
  · rw [h]
    norm_num

/-! ## Sanity evaluations

Concrete evaluations of the embedded functions on the spec's own examples and
on the command grammar. -/

example : channelTimeline [(5, false), (10, true), (5, false)] =
    [(0, false), (5, true), (15, false)] := by
  norm_num [channelTimeline, cumTimeline, cumPoints, collapse, collapseAux]

example : channelTimeline [] = [(0, false)] := by
  norm_num [channelTimeline, cumTimeline]

example : buildActive [(0, false), (5, true), (15, false)] [(0, false)] =
    [(0, false), (5, true), (15, false)] := by
  norm_num [buildActive, orPoint]

example : buildActive [(0, true)] [(0, false), (5, true), (10, false)] =
    [(0, true), (5, true), (10, false)] := by
  norm_num [buildActive, orPoint]

example : buildLed 10 [(0, false), (5, true)] = [(5, 2)] := by
  norm_num [buildLed, ledChunks]

example : buildLed 1 [(0, false), (100, true)] = [(40, 0), (60, 1)] := by
  norm_num [buildLed, ledChunks]

example : parseCommand "Download protocol ghost".data =
    some (.download "ghost".data) := by decide

example : parseCommand "Return protocol list".data = some .returnList := by
  decide

example : parseCommand "Upload protocol demo wrongpass".data =
    some (.upload "demo".data "wrongpass".data) := by decide

example : parseCommand "Stop server".data = some .stopServerCmd := by decide

example : parseCommand "Make me a sandwich".data = none := by decide

